import Mathlib

/-!
Verification development for the skultrafast 2D-dataset module
(src/skultrafast/twoD_dataset.py).

The Python code is shallowly embedded over the rationals: numpy float
arrays become lists of rationals, the 3-D array spec2d becomes a nested
list indexed [t][probe][pump], fallible operations return Except, and
the in-place mutation of background_correction becomes a state
transformer on the dataset value.  External solver calls (lmfit
nonlinear fits) are modelled as oracle parameters; deterministic
external numerics (numpy polyfit, statsmodels OLS/WLS) are embedded by
their documented least-squares contracts, computed exactly over ℚ.
-/

/-- Filter a list by a boolean mask of the same length, keeping the
entries whose mask bit is true.  Models numpy boolean-mask indexing
a[mask]. -/
def maskFilter {α : Type} : List α → List Bool → List α
  | a :: l, b :: m => if b then a :: maskFilter l m else maskFilter l m
  | _, _ => []

/-- Fancy indexing a[idx] for an index list: pick the element at each
index (out-of-range positions yield the default, never reached on
shape-correct data). -/
def reindex {α : Type} (l : List α) (idx : List ℕ) (d : α) : List α :=
  idx.map fun i => l.getD i d

/-- Index list that sorts l ascending: np.argsort.  Realised with
insertion sort over the index list; on axes with pairwise-distinct
values (the documented dataset invariant) every correct argsort agrees
with it. -/
def argsort (l : List ℚ) : List ℕ :=
  List.insertionSort (fun i j => l.getD i 0 ≤ l.getD j 0) (List.range l.length)

/-- Dot product of two rational lists (sum of elementwise products). -/
def dotL (a b : List ℚ) : ℚ :=
  (List.zipWith (· * ·) a b).sum

/-- Arithmetic mean of a list, np.ndarray.mean (0/0 = 0 for the empty
list, which numpy reports as nan; no claim touches that corner). -/
def meanL (l : List ℚ) : ℚ :=
  l.sum / l.length

/-- Helper for argminL: scan the tail, keeping the first index of the
least value seen so far.  Strict comparison keeps the first occurrence,
matching np.argmin. -/
def argminAux : List ℚ → ℚ → ℕ → ℕ → ℕ
  | [], _, _, best => best
  | a :: rest, cur, i, best =>
      if a < cur then argminAux rest a (i + 1) i else argminAux rest cur (i + 1) best

/-- First index of the minimum of a list: np.argmin (0 on the empty
list, where numpy raises; no claim touches that corner). -/
def argminL : List ℚ → ℕ
  | [] => 0
  | a :: rest => argminAux rest a 1 0

/-- Minimum value of a list: np.min (0 on the empty list, where numpy
raises; claims using it carry a nonemptiness hypothesis). -/
def minL : List ℚ → ℚ
  | [] => 0
  | a :: rest => rest.foldl min a

/-- Absolute value written as the branch numpy takes; equal to abs on
ℚ. -/
def absQ (q : ℚ) : ℚ :=
  if q < 0 then -q else q

/-- Modelled from the spec: skultrafast.dv.fi is not under src/.
Section 4.1 of the spec: nearest-index lookup, returning the index of
the axis element closest to the query, lower index on an exact tie. -/
def nearestIdx (axis : List ℚ) (v : ℚ) : ℕ :=
  argminL (axis.map fun a => absQ (a - v))

/-- Modelled from the spec: skultrafast.utils.inbetween is not under
src/.  Section 4.2 of the spec: boolean mask satisfying
lower <= value <= upper. -/
def inbetweenB (lo hi a : ℚ) : Bool :=
  decide (lo ≤ a) && decide (a ≤ hi)

/-- Boolean mask of inbetween over a whole axis. -/
def maskInbetween (l : List ℚ) (lo hi : ℚ) : List Bool :=
  l.map fun a => inbetweenB lo hi a

/-- Trapezoidal integration np.trapz(ys, xs). -/
def trapz : List ℚ → List ℚ → ℚ
  | y1 :: y2 :: ys, x1 :: x2 :: xs => (x2 - x1) * (y1 + y2) / 2 + trapz (y2 :: ys) (x2 :: xs)
  | _, _ => 0

/-- List.map with the element index, by structural recursion (kernel
friendly), starting from a given index. -/
def idxMapFrom {α β : Type} (f : ℕ → α → β) : ℕ → List α → List β
  | _, [] => []
  | i, a :: l => f i a :: idxMapFrom f (i + 1) l

/-- List.map with the element index. -/
def idxMap {α β : Type} (f : ℕ → α → β) (l : List α) : List β :=
  idxMapFrom f 0 l

/-- Polynomial evaluation by Horner's rule, coefficients in ascending
order of degree.  numpy's polyval takes descending coefficients; this
embedding stores them ascending, and polyfit below produces the same
order, so every composition polyval(polyfit(...), x) agrees with the
numpy one. -/
def polyval (c : List ℚ) (x : ℚ) : ℚ :=
  c.foldr (fun a acc => a + x * acc) 0

/-- Vandermonde design matrix of the least-squares polynomial fit:
row per sample point, column per power 0..deg. -/
def vandermondeL (xs : List ℚ) (deg : ℕ) : Matrix (Fin xs.length) (Fin (deg + 1)) ℚ :=
  Matrix.of fun i j => xs.get i ^ (j : ℕ)

/-- Normal-equation matrix Vᵀ V of the polynomial least-squares
problem. -/
def normalMat (xs : List ℚ) (deg : ℕ) : Matrix (Fin (deg + 1)) (Fin (deg + 1)) ℚ :=
  (vandermondeL xs deg).transpose * vandermondeL xs deg

/-- Normal-equation right-hand side Vᵀ y. -/
def normalVec (xs ys : List ℚ) (deg : ℕ) : Fin (deg + 1) → ℚ :=
  (vandermondeL xs deg).transpose.mulVec fun i => ys.getD i 0

/-- np.polyfit(xs, ys, deg): the least-squares polynomial fit.  numpy
computes it via lstsq; over ℚ the unique solution (when the normal
matrix is nonsingular) is obtained exactly from the normal equations by
Cramer's rule.  When the normal matrix is singular the division by the
zero determinant produces garbage coefficients, matching the spec's
warning that an over-excluded range yields a garbage fit. -/
def polyfit (xs ys : List ℚ) (deg : ℕ) : List ℚ :=
  (List.finRange (deg + 1)).map fun j =>
    Matrix.cramer (normalMat xs deg) (normalVec xs ys deg) j / (normalMat xs deg).det

/-- The TwoDim dataset: waiting times, pump and probe wavenumber axes,
and the 3-D data indexed [t][probe][pump].  The Python class also
carries meta info, a plotter and lazily cached analysis results; none
of the claims concern those fields, and a fresh copy starts them empty,
so the embedding keeps only the four data-carrying fields. -/
structure TwoDim where
  t : List ℚ
  pump_wn : List ℚ
  probe_wn : List ℚ
  spec2d : List (List (List ℚ))
deriving DecidableEq

/-- Shape of a nested list read the way numpy reports an ndarray shape
(length of the first slice at each level). -/
def dataShape (d : List (List (List ℚ))) : ℕ × ℕ × ℕ :=
  (d.length, (d.headD []).length, ((d.headD []).headD []).length)

/-- Rectangularity of a nested list: every slice has the length of the
first one.  Valid numpy ndarrays are rectangular by construction. -/
def isCuboid (d : List (List (List ℚ))) : Bool :=
  d.all fun sl =>
    sl.length == (d.headD []).length &&
      sl.all fun r => r.length == ((d.headD []).headD []).length

/-- Render a shape tuple the way Python prints it. -/
def shapeStr (s : ℕ × ℕ × ℕ) : String :=
  "(" ++ toString s.1 ++ ", " ++ toString s.2.1 ++ ", " ++ toString s.2.2 ++ ")"

/-- The ValueError message of TwoDim.__attrs_post_init__, actual shape
first, expected shape second, matching the source f-string (including
its missing space before the first shape). -/
def shapeMsg (actual expected : ℕ × ℕ × ℕ) : String :=
  "Data shape not equal to t, wn_probe, wn_pump shape" ++ shapeStr actual ++ " != " ++
    shapeStr expected

/-- TwoDim.__attrs_post_init__, run by the attrs constructor: check
spec2d.shape == (len(t), len(probe_wn), len(pump_wn)) and raise a
ValueError naming both shapes otherwise; then store copies of the four
arrays (copies are identities in this value-semantics embedding) and
reindex pump_wn, probe_wn and the matching spec2d axes by their
argsorts.  The t axis is copied but not sorted.  postInitPayload is the
sorting step, the dataset stored when the shape check passes. -/
def postInitPayload (t pump probe : List ℚ) (data : List (List (List ℚ))) : TwoDim :=
  let i1 := argsort pump
  let i2 := argsort probe
  { t := t
    pump_wn := reindex pump i1 0
    probe_wn := reindex probe i2 0
    spec2d := data.map fun sl => reindex (sl.map fun row => reindex row i1 0) i2 [] }

/-- The shape check and the raise of __attrs_post_init__ around the
sorting step. -/
def attrsPostInit (t pump probe : List ℚ) (data : List (List (List ℚ))) :
    Except String TwoDim :=
  let target := (t.length, probe.length, pump.length)
  if dataShape data = target then .ok (postInitPayload t pump probe data)
  else .error (shapeMsg (dataShape data) target)

/-- TwoDim.copy: construct TwoDim(t, pump_wn, probe_wn, spec2d) afresh,
which re-runs __attrs_post_init__ (and starts caches empty). -/
def TwoDim.copy (ds : TwoDim) : Except String TwoDim :=
  attrsPostInit ds.t ds.pump_wn ds.probe_wn ds.spec2d

/-- Well-formedness of a dataset value: spec2d is rectangular with
shape (len(t), len(probe_wn), len(pump_wn)), the construction-time
invariant. -/
def TwoDim.shapeOk (ds : TwoDim) : Bool :=
  ds.spec2d.length == ds.t.length &&
    ds.spec2d.all fun sl =>
      sl.length == ds.probe_wn.length &&
        sl.all fun r => r.length == ds.pump_wn.length

/-- Python not applied to a numpy boolean array: defined only for a
single-element array (negating its truth value); any other size raises
ValueError because the truth value of the array is ambiguous. -/
def numpyNot (mask : List Bool) : Except String Bool :=
  match mask with
  | [b] => .ok (!b)
  | _ =>
      .error
        "The truth value of an array with more than one element is ambiguous. Use a.any() or a.all()"

/-- TwoDim.select_range(pump_range, probe_range, invert): build
inbetween masks with min/max of each range, optionally apply Python
not to each mask (which raises on multi-element masks), then copy the
dataset and slice its axes and data by the two masks.  In the sole
surviving invert case (both axis masks of length one) NumPy scalar
boolean indexing inserts a new axis and yields a shape-corrupted array
rather than raising; that continuation leaves the 3-D data model and is
reported as a distinct error value here (no claim depends on it). -/
def selectRange (ds : TwoDim) (pumpRange probeRange : ℚ × ℚ) (invert : Bool) :
    Except String TwoDim :=
  let puMask := maskInbetween ds.pump_wn (min pumpRange.1 pumpRange.2)
    (max pumpRange.1 pumpRange.2)
  let prMask := maskInbetween ds.probe_wn (min probeRange.1 probeRange.2)
    (max probeRange.1 probeRange.2)
  if invert then
    match numpyNot puMask with
    | .error e => .error e
    | .ok _ =>
        match numpyNot prMask with
        | .error e => .error e
        | .ok _ => .error "selectRange: scalar boolean index outside the 3-D data model"
  else
    match ds.copy with
    | .error e => .error e
    | .ok c =>
        .ok { c with
              spec2d := c.spec2d.map fun sl =>
                (maskFilter sl prMask).map fun row => maskFilter row puMask
              pump_wn := maskFilter c.pump_wn puMask
              probe_wn := maskFilter c.probe_wn prMask }

/-- The probe mask used by background_correction: points outside the
excluded range (note the source passes the raw bounds to inbetween,
without min/max). -/
def bgMask (probe : List ℚ) (excludedRange : ℚ × ℚ) : List Bool :=
  probe.map fun w => !(inbetweenB excludedRange.1 excludedRange.2 w)

/-- The probe-axis column of one waiting-time slice at a fixed pump
index: spec2d[ti, :, pi]. -/
def colExtract (sl : List (List ℚ)) (pj : ℕ) : List ℚ :=
  sl.map fun row => row.getD pj 0

/-- The polynomial coefficients background_correction fits for one
(waiting-time, pump) column: np.polyfit restricted to the probe points
selected by the mask. -/
def bgCoefs (probe : List ℚ) (mask : List Bool) (sl : List (List ℚ)) (pj deg : ℕ) :
    List ℚ :=
  polyfit (maskFilter probe mask) (maskFilter (colExtract sl pj) mask) deg

/-- TwoDim.background_correction(excluded_range, deg): for every
waiting time and pump index, fit a degree-deg polynomial to the column
values at probe points outside excluded_range and subtract its values
over the full probe axis from the column.  The Python method returns
None and mutates spec2d in place; the embedding returns the mutated
dataset value (axes untouched). -/
def backgroundCorrection (ds : TwoDim) (excludedRange : ℚ × ℚ) (deg : ℕ) : TwoDim :=
  let mask := bgMask ds.probe_wn excludedRange
  { ds with
    spec2d := ds.spec2d.map fun sl =>
      idxMap (fun j row =>
        idxMap (fun pj v =>
          v - polyval (bgCoefs ds.probe_wn mask sl pj deg) (ds.probe_wn.getD j 0)) row) sl }

/-- State of the destination path handed to save_txt. -/
inductive PathState
  | dir
  | file
  | absent
deriving DecidableEq

/-- Path.is_dir. -/
def PathState.isDir : PathState → Bool
  | .dir => true
  | _ => false

/-- Observable outcome of one call of TwoDim.save_txt: the raised error
or success, whether the p.mkdir call was evaluated, the final state of
the destination path, and the indices of the waiting times whose files
were written. -/
instance {ε α : Type} [DecidableEq ε] [DecidableEq α] : DecidableEq (Except ε α) :=
  fun a b =>
    match a, b with
    | .ok x, .ok y => if h : x = y then isTrue (by rw [h]) else isFalse (by simp [h])
    | .ok _, .error _ => isFalse (by simp)
    | .error _, .ok _ => isFalse (by simp)
    | .error x, .error y => if h : x = y then isTrue (by rw [h]) else isFalse (by simp [h])

structure SaveTxtOutcome where
  result : Except String Unit
  mkdirExecuted : Bool
  finalPath : PathState
  filesWritten : List ℕ
deriving DecidableEq

/-- TwoDim.save_txt(pname): evaluate
if not p.is_dir() or p.mkdir(parents=True, exist_ok=True): raise
ValueError, else write one file per waiting time.  When the path is not
a directory the first operand of the short-circuiting or is truthy, so
mkdir is never evaluated and the ValueError is raised before any file
is written.  When the path is a directory, the or evaluates mkdir: the
directory exists and exist_ok is set, so the call is a no-op returning
None (falsy), no exception is raised, and the per-waiting-time loop
runs. -/
def saveTxt (pname : String) (st : PathState) (numTimes : ℕ) : SaveTxtOutcome :=
  if !st.isDir then
    { result := .error (pname ++ " is not a directory")
      mkdirExecuted := false
      finalPath := st
      filesWritten := [] }
  else
    { result := .ok ()
      mkdirExecuted := true
      finalPath := st
      filesWritten := List.range numTimes }

/-- str.endswith, computed on the character lists (String.endsWith has
the same value but does not reduce in the kernel). -/
def endsWithB (s suffx : String) : Bool :=
  decide (s.data.reverse.take suffx.data.length = suffx.data.reverse)

/-- The letters used for lmfit parameter prefixes in
FFCFResult.exp_fit: 'abcdefg'[i] (out of range raises in Python; the
claims quantify over at most seven components). -/
def letterAt (i : ℕ) : String :=
  (["a", "b", "c", "d", "e", "f", "g"]).getD i ""

/-- Configuration of the lmfit model built by FFCFResult.exp_fit,
before the nonlinear optimizer runs: the parameter names of the
constant-plus-k-exponentials model, which of them carry a min=0 hint,
the initial values passed to fit, the constant's value and whether it
may vary, and the optional point weights. -/
structure ExpFitSetup where
  paramNames : List String
  minZeroParams : List String
  initVals : List (String × ℚ)
  cInit : ℚ
  cVary : Bool
  weights : Option (List ℚ)

/-- FFCFResult.exp_fit(start_taus, use_const, use_weights), up to the
handoff to the lmfit optimizer: build ConstantModel plus one
ExponentialModel per start tau (prefixes a_, b_, ...), hint min=0 on
every parameter ending in decay or amplitude, set the constant to
max(min(slopes), 0) when use_const else fix it at 0 (vary=False is set
only in the else branch), and weight by 1/slope_errors when errors are
present and use_weights. -/
def expFitSetup (slopes : List ℚ) (slopeErrors : Option (List ℚ)) (startTaus : List ℚ)
    (useConst useWeights : Bool) : ExpFitSetup :=
  let pfx := (List.range startTaus.length).map fun i => letterAt i ++ "_"
  let names := "c" :: ((pfx.map (· ++ "amplitude")) ++ (pfx.map (· ++ "decay")))
  { paramNames := names
    minZeroParams := names.filter fun p => endsWithB p "decay" || endsWithB p "amplitude"
    initVals :=
      ((pfx.zip startTaus).map fun q => (q.1 ++ "decay", q.2)) ++
        (pfx.map fun q => (q ++ "amplitude", 1 / 2 / (startTaus.length : ℚ)))
    cInit := if useConst then max (minL slopes) 0 else 0
    cVary := useConst
    weights :=
      match slopeErrors, useWeights with
      | some es, true => some (es.map fun e => 1 / e)
      | _, _ => none }

/-- A float value that may be nan: the per-point location errors of
single_cls are 1.0 for the closed-form locators and the fitted center's
standard error, or nan when lmfit reports none, for the peak-fit
locators. -/
inductive RVal
  | num (q : ℚ)
  | nan
deriving DecidableEq

/-- np.isfinite. -/
def RVal.isFinite : RVal → Bool
  | .num _ => true
  | .nan => false

/-- Numeric content of a finite value (0 for nan; weights are only used
on all-finite error lists). -/
def RVal.toQ : RVal → ℚ
  | .num q => q
  | .nan => 0

/-- Which statsmodels regression single_cls ran. -/
inductive RegKind
  | wls (weights : List ℚ)
  | ols
deriving DecidableEq

/-- The slice of a statsmodels regression result that single_cls and
cls consume: the model class it came from, params[0] (the constant term
prepended by add_constant) and params[1] (the coefficient of the
regressor), and predict() at the design points. -/
structure RegResult where
  kind : RegKind
  params : ℚ × ℚ
  fittedValues : List ℚ
deriving DecidableEq

/-- Closed-form weighted-least-squares solution of y = a + b x with
point weights w (design add_constant(x)): the contract of
statsmodels WLS(y, add_constant(x), weights=w).fit().params, exact over
ℚ whenever the weighted design is nondegenerate.  Returns (a, b) =
(params[0], params[1]). -/
def wlsParams (x y w : List ℚ) : ℚ × ℚ :=
  let s := w.sum
  let sx := dotL w x
  let sy := dotL w y
  let sxx := dotL w (List.zipWith (· * ·) x x)
  let sxy := dotL w (List.zipWith (· * ·) x y)
  let d := s * sxx - sx * sx
  ((sxx * sy - sx * sxy) / d, (s * sxy - sx * sy) / d)

/-- statsmodels WLS(y, add_constant(x), weights=w).fit(): parameters
and fitted values (predict() with no argument). -/
def wlsFit (x y w : List ℚ) : RegResult :=
  let p := wlsParams x y w
  { kind := .wls w
    params := p
    fittedValues := x.map fun xi => p.1 + p.2 * xi }

/-- statsmodels OLS(y, add_constant(x)).fit(): ordinary least squares,
i.e. unit weights. -/
def olsFit (x y : List ℚ) : RegResult :=
  let p := wlsParams x y (x.map fun _ => 1)
  { kind := .ols
    params := p
    fittedValues := x.map fun xi => p.1 + p.2 * xi }

/-- The per-point weights 1/yerr**2 used by single_cls when every
error is finite. -/
def weightsOf (yerr : List RVal) : List ℚ :=
  yerr.map fun e => 1 / e.toQ ^ 2

/-- Lines 418-423 of single_cls: all_err_valid = np.isfinite(yerr).all()
selects WLS with weights 1/yerr**2, else OLS, silently. -/
def clsRegress (x y : List ℚ) (yerr : List RVal) : RegResult :=
  if yerr.all RVal.isFinite then wlsFit x y (weightsOf yerr) else olsFit x y

/-- Result object of a single CLS analysis, mirroring the fields of the
Python SingleCLSResult (reg_result keeps the consumed slice of the
statsmodels object). -/
structure SingleCLSResult where
  pump_wn : List ℚ
  max_pos : List ℚ
  max_pos_err : List RVal
  slope : ℚ
  reg_result : RegResult
  recentered_pump_wn : List ℚ
  linear_fit : List ℚ
deriving DecidableEq

/-- The pr_range/pu_range arguments of single_cls: a float half-width
around the detected extremum, or an explicit (lower, upper) tuple. -/
inductive RangeSpec
  | halfWidth (w : ℚ)
  | bounds (lo hi : ℚ)

/-- The mode argument of single_cls. -/
inductive ClsMode
  | neg
  | pos

/-- The method argument of single_cls.  com and quad are deterministic
and embedded in full.  fit and skew_fit call the external lmfit
optimizer on a Gaussian (resp. Gaussian plus linear background) model;
the optimizer is modelled as an oracle from the windowed data, the
center-of-mass initial center and the trapezoid initial amplitude to
the fitted center and its optional standard error.  log_quad applies a
real logarithm to the data and has no exact rational embedding; no
claim depends on it. -/
inductive ClsMethod
  | com
  | quad
  | gaussFit (oracle : List ℚ → List ℚ → ℚ → ℚ → ℚ × Option ℚ)
  | skewFit (oracle : List ℚ → List ℚ → ℚ → ℚ → ℚ × Option ℚ)

/-- The axis window masks of single_cls: a float range is strict on
both sides ((axis < c + w) & (axis > c - w)), a tuple range is the
inclusive inbetween mask. -/
def windowMask (axis : List ℚ) (center : ℚ) (r : RangeSpec) : List Bool :=
  match r with
  | .halfWidth w => axis.map fun a => decide (a < center + w) && decide (center - w < a)
  | .bounds lo hi => maskInbetween axis lo hi

/-- The per-pump-slice maximum location step of single_cls: window the
probe axis around the slice minimum (or by the explicit bounds), take
the center of mass with the signal values as weights, and dispatch on
the method to produce (position, error). -/
def locate (pr : List ℚ) (prRange : RangeSpec) (meth : ClsMethod) (s : List ℚ) :
    ℚ × RVal :=
  let m := argminL s
  let prMask := windowMask pr (pr.getD m 0) prRange
  let xsw := maskFilter pr prMask
  let ysw := maskFilter s prMask
  let cen := dotL xsw ysw / ysw.sum
  match meth with
  | .com => (cen, .num 1)
  | .quad =>
      let c := polyfit xsw ysw 2
      (-(c.getD 1 0) / (2 * c.getD 2 0), .num 1)
  | .gaussFit oracle =>
      let amp := trapz ysw xsw
      let r := oracle xsw ysw cen amp
      (r.1, match r.2 with
            | some e => .num e
            | none => .nan)
  | .skewFit oracle =>
      let amp := trapz ysw xsw
      let r := oracle xsw ysw cen amp
      (r.1, match r.2 with
            | some e => .num e
            | none => .nan)

/-- TwoDim.single_cls(t, pr_range, pu_range, mode, method): take the
spectrum at the waiting time nearest t, transposed to [pump][probe]
(negated for mode pos), find the pump slice holding the global minimum,
window the pump axis around it, recenter the selected pump values by
their mean, locate the probe-axis extremum of every selected pump
slice, regress locations on the recentered pump values (WLS with
weights 1/err**2 when all errors are finite, else OLS, both on the
design add_constant(x)), and package the SingleCLSResult; the slope
field is assigned r.params[0]. -/
def singleCls (ds : TwoDim) (t : ℚ) (prRange puRange : RangeSpec) (mode : ClsMode)
    (meth : ClsMethod) : SingleCLSResult :=
  let pu := ds.pump_wn
  let pr := ds.probe_wn
  let sliceT := (ds.spec2d.getD (nearestIdx ds.t t) []).transpose
  let spec :=
    match mode with
    | .pos => sliceT.map fun r => r.map Neg.neg
    | .neg => sliceT
  let puMax := pu.getD (argminL (spec.map minL)) 0
  let puMask := windowMask pu puMax puRange
  let puSel := maskFilter pu puMask
  let x := puSel.map fun a => a - meanL puSel
  let rows := maskFilter spec puMask
  let locs := rows.map (locate pr prRange meth)
  let y := locs.map Prod.fst
  let yerr := locs.map Prod.snd
  let r := clsRegress x y yerr
  { pump_wn := x.map fun a => a + meanL puSel
    max_pos := y
    max_pos_err := yerr
    slope := r.params.1
    reg_result := r
    recentered_pump_wn := x
    linear_fit := r.fittedValues }

/-! ## Theorems -/

/-- The branch of clsRegress taken on all-finite errors. -/
theorem clsRegress_of_all_finite (x y : List ℚ) (yerr : List RVal)
    (h : yerr.all RVal.isFinite = true) :
    clsRegress x y yerr = wlsFit x y (weightsOf yerr) := by
  unfold clsRegress
  rw [if_pos h]

/-- The branch of clsRegress taken when some error is not finite. -/
theorem clsRegress_of_not_finite (x y : List ℚ) (yerr : List RVal)
    (h : yerr.all RVal.isFinite = false) :
    clsRegress x y yerr = olsFit x y := by
  unfold clsRegress
  rw [if_neg]
  simp [h]

/-- A multi-element boolean mask has no Python truth value: numpyNot
raises the ambiguity ValueError. -/
theorem numpyNot_multi (mask : List Bool) (h : 1 < mask.length) :
    numpyNot mask =
      .error
        "The truth value of an array with more than one element is ambiguous. Use a.any() or a.all()" := by
  match mask with
  | [] => simp at h
  | [b] => simp at h
  | b1 :: b2 :: rest => rfl

/-- C9: if the destination path of save_txt exists and is not a
directory, save_txt raises the ValueError naming the path before any
per-waiting-time file is written (and leaves the path untouched). -/
theorem c9_save_txt_nondir_error (pname : String) (numTimes : ℕ) :
    (saveTxt pname .file numTimes).result = .error (pname ++ " is not a directory") ∧
    (saveTxt pname .file numTimes).filesWritten = [] ∧
    (saveTxt pname .file numTimes).finalPath = .file :=
  ⟨rfl, rfl, rfl⟩

/-- C10 counterexample: on an already-existing directory save_txt does
not raise, and the p.mkdir call IS evaluated on this non-raising path
(as the second operand of the or), contradicting the claim that mkdir
is never executed on the non-raising path. -/
theorem c10_mkdir_counterexample :
    (saveTxt "out" .dir 1).result = .ok () ∧
    (saveTxt "out" .dir 1).mkdirExecuted = true :=
  ⟨rfl, rfl⟩

/-- C10 (amended): for every destination path that is not an existing
directory — including an absent one — save_txt raises the ValueError,
mkdir is short-circuited away (so nothing is created and no file is
written); save_txt succeeds only when the directory already exists, and
on that non-raising path mkdir IS evaluated, as a no-op thanks to
exist_ok. -/
theorem c10_save_txt_dir_check (pname : String) (st : PathState) (numTimes : ℕ) :
    (st ≠ .dir →
      saveTxt pname st numTimes =
        { result := .error (pname ++ " is not a directory")
          mkdirExecuted := false
          finalPath := st
          filesWritten := [] }) ∧
    (st = .dir →
      (saveTxt pname st numTimes).result = .ok () ∧
      (saveTxt pname st numTimes).mkdirExecuted = true ∧
      (saveTxt pname st numTimes).finalPath = st ∧
      (saveTxt pname st numTimes).filesWritten = List.range numTimes) := by
  constructor
  · intro h
    cases st with
    | dir => exact absurd rfl h
    | file => rfl
    | absent => rfl
  · intro h
    subst h
    exact ⟨rfl, rfl, rfl, rfl⟩

/-- C10 witness: a concrete absent path raises and writes nothing; a
concrete existing directory succeeds. -/
theorem c10_save_txt_dir_check_witness :
    saveTxt "spectra" .absent 2 =
      { result := .error ("spectra" ++ " is not a directory")
        mkdirExecuted := false
        finalPath := .absent
        filesWritten := [] } ∧
    (saveTxt "spectra" .dir 2).result = .ok () :=
  ⟨(c10_save_txt_dir_check "spectra" .absent 2).1 (by decide),
   ((c10_save_txt_dir_check "spectra" .dir 2).2 rfl).1⟩

/-- C7: constructing a TwoDim with a spec2d whose shape differs from
(len(t), len(probe_wn), len(pump_wn)) yields the ValueError naming the
actual and expected shapes and no dataset; every shape-conforming input
constructs successfully. -/
theorem c7_shape_check (t pump probe : List ℚ) (data : List (List (List ℚ))) :
    (dataShape data = (t.length, probe.length, pump.length) →
      ∃ ds, attrsPostInit t pump probe data = .ok ds) ∧
    (dataShape data ≠ (t.length, probe.length, pump.length) →
      attrsPostInit t pump probe data =
        .error (shapeMsg (dataShape data) (t.length, probe.length, pump.length))) := by
  constructor
  · intro h
    exact ⟨postInitPayload t pump probe data, by simp [attrsPostInit, h]⟩
  · intro h
    simp [attrsPostInit, h]

/-- C7 witness: a concrete conforming input constructs; a concrete
mismatching input yields the descriptive error. -/
theorem c7_shape_check_witness :
    (∃ ds, attrsPostInit [0] [1] [2] [[[3]]] = .ok ds) ∧
    attrsPostInit [0] [1] [2] [[[3], [4]]] = .error (shapeMsg (1, 2, 1) (1, 1, 1)) :=
  ⟨(c7_shape_check [0] [1] [2] [[[3]]]).1 (by decide),
   (c7_shape_check [0] [1] [2] [[[3], [4]]]).2 (by decide)⟩

/-- C2 counterexample: on a dataset whose pump and probe axes both hold
two values, select_range with invert=True raises the numpy ambiguity
ValueError instead of returning the dataset produced with invert=False;
the two calls are not equal. -/
theorem c2_invert_counterexample :
    selectRange ⟨[0], [1, 2], [3, 4], [[[1, 2], [3, 4]]]⟩ (1, 2) (3, 4) true =
      .error
        "The truth value of an array with more than one element is ambiguous. Use a.any() or a.all()" ∧
    selectRange ⟨[0], [1, 2], [3, 4], [[[1, 2], [3, 4]]]⟩ (1, 2) (3, 4) true ≠
      selectRange ⟨[0], [1, 2], [3, 4], [[[1, 2], [3, 4]]]⟩ (1, 2) (3, 4) false := by
  constructor
  · rfl
  · decide

/-- C2 (amended): whenever the pump and probe axes hold more than one
value, select_range with invert=True raises the numpy ambiguity
ValueError (Python not applied to a multi-element boolean mask); the
masks are never complemented and no dataset is returned. -/
theorem c2_invert_raises (ds : TwoDim) (pumpRange probeRange : ℚ × ℚ)
    (hpu : 1 < ds.pump_wn.length) (hpr : 1 < ds.probe_wn.length) :
    selectRange ds pumpRange probeRange true =
      .error
        "The truth value of an array with more than one element is ambiguous. Use a.any() or a.all()" := by
  have hlen : 1 <
      (maskInbetween ds.pump_wn (min pumpRange.1 pumpRange.2)
        (max pumpRange.1 pumpRange.2)).length := by
    simpa [maskInbetween] using hpu
  simp only [selectRange, if_true]
  rw [numpyNot_multi _ hlen]

/-- C2 witness: the amended statement at a concrete two-by-two
dataset. -/
theorem c2_invert_raises_witness :
    selectRange ⟨[0], [5, 6], [7, 8], [[[1, 2], [3, 4]]]⟩ (5, 6) (7, 8) true =
      .error
        "The truth value of an array with more than one element is ambiguous. Use a.any() or a.all()" :=
  c2_invert_raises ⟨[0], [5, 6], [7, 8], [[[1, 2], [3, 4]]]⟩ (5, 6) (7, 8) (by decide)
    (by decide)

/-- C4 counterexample: with slopes [-1, 2] and use_const=True the
constant of the exponential fit is initialised at max(min(slopes), 0)
= 0, not at the minimum observed slope -1, and it is left free to vary
(vary=False is only set in the use_const=False branch). -/
theorem c4_const_counterexample :
    (expFitSetup [-1, 2] (some [1]) [1] true true).cVary = true ∧
    (expFitSetup [-1, 2] (some [1]) [1] true true).cInit = 0 ∧
    minL [-1, 2] = -1 ∧
    (expFitSetup [-1, 2] (some [1]) [1] true true).cInit ≠ minL [-1, 2] := by
  refine ⟨rfl, ?_, ?_, ?_⟩ <;> norm_num [expFitSetup, minL]

/-- C4 (amended): exp_fit hints min=0 on every decay and amplitude
parameter; when use_const is requested the constant starts at
max(min(slopes), 0) and stays free to vary, when it is not requested
the constant is fixed at zero; the weights are 1/slope_errors exactly
when errors are present and use_weights is set. -/
theorem c4_exp_fit_setup (slopes : List ℚ) (slopeErrors : Option (List ℚ))
    (startTaus : List ℚ) (useConst useWeights : Bool) :
    (expFitSetup slopes slopeErrors startTaus useConst useWeights).cVary = useConst ∧
    (useConst = true →
      (expFitSetup slopes slopeErrors startTaus useConst useWeights).cInit =
        max (minL slopes) 0) ∧
    (useConst = false →
      (expFitSetup slopes slopeErrors startTaus useConst useWeights).cInit = 0) ∧
    (∀ p ∈ (expFitSetup slopes slopeErrors startTaus useConst useWeights).paramNames,
      (endsWithB p "decay" || endsWithB p "amplitude") = true →
        p ∈ (expFitSetup slopes slopeErrors startTaus useConst useWeights).minZeroParams) ∧
    (expFitSetup slopes slopeErrors startTaus useConst useWeights).weights =
      (match slopeErrors, useWeights with
       | some es, true => some (es.map fun e => 1 / e)
       | _, _ => none) := by
  refine ⟨rfl, ?_, ?_, ?_, rfl⟩
  · intro h
    simp [expFitSetup, h]
  · intro h
    simp [expFitSetup, h]
  · intro p hp hend
    simp only [expFitSetup] at hp ⊢
    exact List.mem_filter.mpr ⟨hp, hend⟩

/-- C4 witness: concrete instances of the amended statement. -/
theorem c4_exp_fit_setup_witness :
    (expFitSetup [-1, 2] (some [1, 1]) [1] false true).cInit = 0 ∧
    "a_decay" ∈ (expFitSetup [-1, 2] (some [1, 1]) [1] false true).minZeroParams ∧
    (expFitSetup [-1, 2] (some [1, 1]) [1] true true).cInit = max (minL [-1, 2]) 0 :=
  ⟨(c4_exp_fit_setup [-1, 2] (some [1, 1]) [1] false true).2.2.1 rfl,
   (c4_exp_fit_setup [-1, 2] (some [1, 1]) [1] false true).2.2.2.1 "a_decay" (by decide)
     (by decide),
   (c4_exp_fit_setup [-1, 2] (some [1, 1]) [1] true true).2.1 rfl⟩

/-- C6: the regression inside single_cls is weighted least squares with
weights 1/err**2 exactly when every located-maximum error is finite,
and silently falls back to ordinary least squares otherwise (the
embedding is total: no exception is raised either way). -/
theorem c6_weighted_regression_fallback (ds : TwoDim) (t : ℚ) (prRange puRange : RangeSpec)
    (mode : ClsMode) (meth : ClsMethod) :
    ((singleCls ds t prRange puRange mode meth).max_pos_err.all RVal.isFinite = true →
      (singleCls ds t prRange puRange mode meth).reg_result =
        wlsFit (singleCls ds t prRange puRange mode meth).recentered_pump_wn
          (singleCls ds t prRange puRange mode meth).max_pos
          (weightsOf (singleCls ds t prRange puRange mode meth).max_pos_err)) ∧
    ((singleCls ds t prRange puRange mode meth).max_pos_err.all RVal.isFinite = false →
      (singleCls ds t prRange puRange mode meth).reg_result =
        olsFit (singleCls ds t prRange puRange mode meth).recentered_pump_wn
          (singleCls ds t prRange puRange mode meth).max_pos) := by
  constructor
  · intro h
    simp only [singleCls] at h ⊢
    exact clsRegress_of_all_finite _ _ _ h
  · intro h
    simp only [singleCls] at h ⊢
    exact clsRegress_of_not_finite _ _ _ h

/-- C6 witness: a concrete run whose peak-fit oracle reports no
standard error, so the located errors contain nan and the regression
silently falls back to OLS. -/
theorem c6_weighted_regression_fallback_witness :
    (singleCls ⟨[0], [1, 2], [1, 2], [[[-1, -1], [-1, -1]]]⟩ 0 (.bounds 0 3) (.bounds 0 3)
        .neg (.gaussFit fun _ _ _ _ => (5, none))).reg_result =
      olsFit
        (singleCls ⟨[0], [1, 2], [1, 2], [[[-1, -1], [-1, -1]]]⟩ 0 (.bounds 0 3) (.bounds 0 3)
            .neg (.gaussFit fun _ _ _ _ => (5, none))).recentered_pump_wn
        (singleCls ⟨[0], [1, 2], [1, 2], [[[-1, -1], [-1, -1]]]⟩ 0 (.bounds 0 3) (.bounds 0 3)
            .neg (.gaussFit fun _ _ _ _ => (5, none))).max_pos :=
  (c6_weighted_regression_fallback ⟨[0], [1, 2], [1, 2], [[[-1, -1], [-1, -1]]]⟩ 0
      (.bounds 0 3) (.bounds 0 3) .neg (.gaussFit fun _ _ _ _ => (5, none))).2 (by decide)

set_option maxHeartbeats 1000000 in
/-- C1: the slope field of the SingleCLSResult returned by single_cls
holds r.params[0] — the constant term of the regression on the design
add_constant(x), i.e. the intercept — not the slope coefficient
r.params[1].  On this concrete dataset the located maxima are
[10, 11, 12] over recentered pump values [-1, 0, 1], so the regression
has constant term 11 and coefficient 1; the stored slope field equals
11, the constant, and differs from the coefficient 1.  The claim (and
the field's own docstring, and cls(), which reads params[1] as the
slope and params[0] as the intercept) say the slope field should be the
coefficient. -/
theorem c1_single_cls_slope_is_constant_term :
    (singleCls ⟨[0], [1, 2, 3], [10, 11, 12], [[[-1, 0, 0], [0, -1, 0], [0, 0, -1]]]⟩ 0
          (.bounds 0 100) (.bounds 0 100) .neg .com).slope =
        (singleCls ⟨[0], [1, 2, 3], [10, 11, 12], [[[-1, 0, 0], [0, -1, 0], [0, 0, -1]]]⟩ 0
          (.bounds 0 100) (.bounds 0 100) .neg .com).reg_result.params.1 ∧
    (singleCls ⟨[0], [1, 2, 3], [10, 11, 12], [[[-1, 0, 0], [0, -1, 0], [0, 0, -1]]]⟩ 0
        (.bounds 0 100) (.bounds 0 100) .neg .com).reg_result.params = (11, 1) ∧
    (singleCls ⟨[0], [1, 2, 3], [10, 11, 12], [[[-1, 0, 0], [0, -1, 0], [0, 0, -1]]]⟩ 0
          (.bounds 0 100) (.bounds 0 100) .neg .com).slope ≠
      (singleCls ⟨[0], [1, 2, 3], [10, 11, 12], [[[-1, 0, 0], [0, -1, 0], [0, 0, -1]]]⟩ 0
          (.bounds 0 100) (.bounds 0 100) .neg .com).reg_result.params.2 := by
  have hp :
      (singleCls ⟨[0], [1, 2, 3], [10, 11, 12], [[[-1, 0, 0], [0, -1, 0], [0, 0, -1]]]⟩ 0
          (.bounds 0 100) (.bounds 0 100) .neg .com).reg_result.params = (11, 1) := by
    norm_num [singleCls, nearestIdx, absQ, argminL, argminAux, minL, meanL, dotL,
      maskFilter, maskInbetween, inbetweenB, windowMask, locate, clsRegress, wlsFit,
      wlsParams, weightsOf, RVal.toQ, List.transpose, RVal.isFinite]
  refine ⟨rfl, hp, ?_⟩
  rw [show (singleCls ⟨[0], [1, 2, 3], [10, 11, 12],
        [[[-1, 0, 0], [0, -1, 0], [0, 0, -1]]]⟩ 0 (.bounds 0 100) (.bounds 0 100) .neg
          .com).slope =
      (singleCls ⟨[0], [1, 2, 3], [10, 11, 12], [[[-1, 0, 0], [0, -1, 0], [0, 0, -1]]]⟩ 0
          (.bounds 0 100) (.bounds 0 100) .neg .com).reg_result.params.1 from rfl, hp]
  norm_num

/-- maskFilter with an all-true mask at least as long as the list is
the identity. -/
theorem maskFilter_of_all_true {α : Type} (l : List α) :
    ∀ mask : List Bool, (∀ b ∈ mask, b = true) → l.length ≤ mask.length →
      maskFilter l mask = l := by
  induction l with
  | nil => intro mask _ _; cases mask <;> rfl
  | cons a l ih =>
      intro mask hall hlen
      cases mask with
      | nil => simp at hlen
      | cons b m =>
          have hb : b = true := hall b (by simp)
          subst hb
          simp only [maskFilter, if_true]
          rw [ih m (fun x hx => hall x (by simp [hx])) (by simpa using hlen)]

/-- maskFilter commutes with map. -/
theorem maskFilter_map {α β : Type} (f : α → β) (l : List α) :
    ∀ mask : List Bool, maskFilter (l.map f) mask = (maskFilter l mask).map f := by
  induction l with
  | nil => intro mask; cases mask <;> rfl
  | cons a l ih =>
      intro mask
      cases mask with
      | nil => rfl
      | cons b m => cases b <;> simp [maskFilter, ih]

/-- Every entry of an inbetween mask over a covered axis is true. -/
theorem maskInbetween_all_true (l : List ℚ) (lo hi : ℚ)
    (h : ∀ a ∈ l, lo ≤ a ∧ a ≤ hi) :
    ∀ b ∈ maskInbetween l lo hi, b = true := by
  intro b hb
  rcases List.mem_map.mp hb with ⟨a, ha, rfl⟩
  simp [inbetweenB, (h a ha).1, (h a ha).2]

/-- argsort is a permutation of the index range. -/
theorem argsort_perm (l : List ℚ) : (argsort l).Perm (List.range l.length) :=
  List.perm_insertionSort _ _

/-- argsort has the length of its list. -/
theorem argsort_length (l : List ℚ) : (argsort l).length = l.length := by
  simpa using (argsort_perm l).length_eq

/-- Members of argsort are in-range indices. -/
theorem mem_argsort_lt (l : List ℚ) {i : ℕ} (h : i ∈ argsort l) : i < l.length := by
  simpa using (argsort_perm l).mem_iff.mp h

/-- argsort sorts the values it indexes. -/
theorem argsort_sorted (l : List ℚ) :
    (argsort l).Pairwise fun i j => l.getD i 0 ≤ l.getD j 0 := by
  haveI : IsTotal ℕ fun i j => l.getD i 0 ≤ l.getD j 0 := ⟨fun _ _ => le_total _ _⟩
  haveI : IsTrans ℕ fun i j => l.getD i 0 ≤ l.getD j 0 := ⟨fun _ _ _ => le_trans⟩
  exact List.sorted_insertionSort _ _

/-- Gathering a list along its own index range is the identity. -/
theorem map_getD_range {α : Type} (l : List α) (d : α) :
    (List.range l.length).map (fun i => l.getD i d) = l := by
  apply List.ext_getElem
  · simp
  · intro n h1 h2
    rw [List.getElem_map, List.getElem_range, List.getD_eq_getElem l d h2]

/-- reindex along the full index range is the identity. -/
theorem reindex_range {α : Type} (l : List α) (d : α) :
    reindex l (List.range l.length) d = l :=
  map_getD_range l d

/-- The reindexed axis is a permutation of the original. -/
theorem reindex_argsort_perm (l : List ℚ) : (reindex l (argsort l) 0).Perm l := by
  have h := (argsort_perm l).map fun i => l.getD i 0
  rwa [map_getD_range] at h

/-- The reindexed axis is sorted ascending. -/
theorem reindex_argsort_sorted (l : List ℚ) :
    (reindex l (argsort l) 0).Pairwise (· ≤ ·) := by
  unfold reindex
  rw [List.pairwise_map]
  exact argsort_sorted l

/-- Length of a reindexed list. -/
theorem reindex_length {α : Type} (l : List α) (idx : List ℕ) (d : α) :
    (reindex l idx d).length = idx.length := by
  simp [reindex]

/-- Entries of a reindexed list. -/
theorem reindex_getD {α : Type} (l : List α) (idx : List ℕ) (d : α) (j : ℕ)
    (h : j < idx.length) :
    (reindex l idx d).getD j d = l.getD (idx.getD j 0) d := by
  unfold reindex
  rw [List.getD_eq_getElem _ _ (by simpa using h), List.getElem_map,
    List.getD_eq_getElem idx 0 h]

/-- Sorting an already-sorted list of values leaves the index range
unchanged. -/
theorem argsort_of_sorted (l : List ℚ) (h : l.Pairwise (· ≤ ·)) :
    argsort l = List.range l.length := by
  unfold argsort
  apply List.Sorted.insertionSort_eq
  refine List.Pairwise.imp_of_mem ?_ (List.pairwise_lt_range l.length)
  intro a b ha hb hab
  have ha' : a < l.length := by simpa using ha
  have hb' : b < l.length := by simpa using hb
  rw [List.getD_eq_getElem _ _ ha', List.getD_eq_getElem _ _ hb']
  exact List.pairwise_iff_getElem.mp h a b ha' hb' hab

/-- Unfolding of the shape invariant into propositional form. -/
theorem shapeOk_iff (ds : TwoDim) :
    ds.shapeOk = true ↔
      ds.spec2d.length = ds.t.length ∧
        ∀ sl ∈ ds.spec2d, sl.length = ds.probe_wn.length ∧
          ∀ r ∈ sl, r.length = ds.pump_wn.length := by
  simp [TwoDim.shapeOk, List.all_eq_true]

/-- Copying a well-formed dataset with sorted axes reproduces it
exactly: the re-run of __attrs_post_init__ passes the shape check and
its argsorts are identities. -/
theorem copy_eq_self (ds : TwoDim) (hsh : ds.shapeOk = true)
    (hpu : ds.pump_wn.Pairwise (· ≤ ·)) (hpr : ds.probe_wn.Pairwise (· ≤ ·))
    (ht : ds.t ≠ []) (hprne : ds.probe_wn ≠ []) :
    ds.copy = .ok ds := by
  obtain ⟨hlen, hsl⟩ := (shapeOk_iff ds).mp hsh
  have hne : ds.spec2d ≠ [] := by
    intro h0
    rw [h0] at hlen
    exact ht (List.length_eq_zero.mp hlen.symm)
  obtain ⟨sl0, rest, heq⟩ := List.exists_cons_of_ne_nil hne
  have hsl0 : sl0 ∈ ds.spec2d := by rw [heq]; exact List.mem_cons_self _ _
  have hsl0len : sl0.length = ds.probe_wn.length := (hsl sl0 hsl0).1
  have hsl0ne : sl0 ≠ [] := by
    intro h0
    rw [h0] at hsl0len
    exact hprne (List.length_eq_zero.mp hsl0len.symm)
  obtain ⟨r0, rrest, heq0⟩ := List.exists_cons_of_ne_nil hsl0ne
  have hr0 : r0 ∈ sl0 := by rw [heq0]; exact List.mem_cons_self _ _
  have hr0len : r0.length = ds.pump_wn.length := (hsl sl0 hsl0).2 r0 hr0
  have h2 : (ds.spec2d.headD []).length = ds.probe_wn.length := by
    rw [heq]
    simpa using hsl0len
  have h3 : ((ds.spec2d.headD []).headD []).length = ds.pump_wn.length := by
    rw [heq]
    simp only [List.headD_cons]
    rw [heq0]
    simpa using hr0len
  have hshape : dataShape ds.spec2d =
      (ds.t.length, ds.probe_wn.length, ds.pump_wn.length) := by
    unfold dataShape
    rw [hlen, h2, h3]
  unfold TwoDim.copy attrsPostInit
  rw [if_pos hshape]
  suffices hpay : postInitPayload ds.t ds.pump_wn ds.probe_wn ds.spec2d = ds by rw [hpay]
  simp only [postInitPayload]
  rw [argsort_of_sorted _ hpu, argsort_of_sorted _ hpr, reindex_range, reindex_range]
  have hmap : ∀ sl ∈ ds.spec2d,
      reindex (sl.map fun row => reindex row (List.range ds.pump_wn.length) 0)
          (List.range ds.probe_wn.length) [] = sl := by
    intro sl hmem
    obtain ⟨hslLen, hrow⟩ := hsl sl hmem
    have hG : sl.map (fun row => reindex row (List.range ds.pump_wn.length) 0) = sl := by
      have hrows : ∀ row ∈ sl,
          reindex row (List.range ds.pump_wn.length) 0 = row := by
        intro row hr
        rw [← hrow row hr]
        exact reindex_range row 0
      rw [List.map_congr_left hrows, List.map_id']
    rw [hG, ← hslLen]
    exact reindex_range sl []
  rw [List.map_congr_left hmap, List.map_id']

/-- C8: selecting a pump range and a probe range that each cover the
full extent of the respective axis (with invert=False) returns a
dataset equal, in all fields, to a copy of the original. -/
theorem c8_select_full_range_identity (ds : TwoDim) (pumpRange probeRange : ℚ × ℚ)
    (hsh : ds.shapeOk = true)
    (hpu : ds.pump_wn.Pairwise (· ≤ ·)) (hpr : ds.probe_wn.Pairwise (· ≤ ·))
    (ht : ds.t ≠ []) (hprne : ds.probe_wn ≠ [])
    (hcovpu : ∀ w ∈ ds.pump_wn,
      min pumpRange.1 pumpRange.2 ≤ w ∧ w ≤ max pumpRange.1 pumpRange.2)
    (hcovpr : ∀ w ∈ ds.probe_wn,
      min probeRange.1 probeRange.2 ≤ w ∧ w ≤ max probeRange.1 probeRange.2) :
    selectRange ds pumpRange probeRange false = .ok ds := by
  obtain ⟨hlen, hsl⟩ := (shapeOk_iff ds).mp hsh
  have hcopy := copy_eq_self ds hsh hpu hpr ht hprne
  have htru1 := maskInbetween_all_true ds.pump_wn _ _ hcovpu
  have htru2 := maskInbetween_all_true ds.probe_wn _ _ hcovpr
  have hpuM : maskFilter ds.pump_wn
      (maskInbetween ds.pump_wn (min pumpRange.1 pumpRange.2)
        (max pumpRange.1 pumpRange.2)) = ds.pump_wn :=
    maskFilter_of_all_true _ _ htru1 (by simp [maskInbetween])
  have hprM : maskFilter ds.probe_wn
      (maskInbetween ds.probe_wn (min probeRange.1 probeRange.2)
        (max probeRange.1 probeRange.2)) = ds.probe_wn :=
    maskFilter_of_all_true _ _ htru2 (by simp [maskInbetween])
  have hdata : ds.spec2d.map (fun sl =>
      (maskFilter sl
          (maskInbetween ds.probe_wn (min probeRange.1 probeRange.2)
            (max probeRange.1 probeRange.2))).map fun row =>
        maskFilter row
          (maskInbetween ds.pump_wn (min pumpRange.1 pumpRange.2)
            (max pumpRange.1 pumpRange.2))) = ds.spec2d := by
    have hmap : ∀ sl ∈ ds.spec2d,
        (maskFilter sl
            (maskInbetween ds.probe_wn (min probeRange.1 probeRange.2)
              (max probeRange.1 probeRange.2))).map (fun row =>
          maskFilter row
            (maskInbetween ds.pump_wn (min pumpRange.1 pumpRange.2)
              (max pumpRange.1 pumpRange.2))) = sl := by
      intro sl hmem
      obtain ⟨hslLen, hrow⟩ := hsl sl hmem
      rw [maskFilter_of_all_true _ _ htru2 (by simp [maskInbetween, hslLen])]
      have hrows : ∀ row ∈ sl,
          maskFilter row
            (maskInbetween ds.pump_wn (min pumpRange.1 pumpRange.2)
              (max pumpRange.1 pumpRange.2)) = row := by
        intro row hr
        exact maskFilter_of_all_true _ _ htru1 (by simp [maskInbetween, hrow row hr])
      rw [List.map_congr_left hrows, List.map_id']
    rw [List.map_congr_left hmap, List.map_id']
  unfold selectRange
  simp only [Bool.false_eq_true, if_false, hcopy, hdata, hpuM, hprM]

/-- C8 witness: the amended statement at a concrete dataset with
ranges covering both axes in full. -/
theorem c8_select_full_range_identity_witness :
    selectRange ⟨[0], [1, 2], [3, 4], [[[1, 2], [3, 4]]]⟩ (1, 2) (3, 4) false =
      .ok ⟨[0], [1, 2], [3, 4], [[[1, 2], [3, 4]]]⟩ :=
  c8_select_full_range_identity ⟨[0], [1, 2], [3, 4], [[[1, 2], [3, 4]]]⟩ (1, 2) (3, 4)
    (by decide) (by decide) (by decide) (by decide) (by decide) (by decide) (by decide)

/-- getD through a map, for in-range indices. -/
theorem getD_map_of_lt {α β : Type} (f : α → β) :
    ∀ (l : List α) (i : ℕ), i < l.length → ∀ (d : β) (d0 : α),
      (l.map f).getD i d = f (l.getD i d0) := by
  intro l
  induction l with
  | nil =>
      intro i h
      simp at h
  | cons a l ih =>
      intro i h d d0
      cases i with
      | zero => rfl
      | succ n => simpa using ih n (by simpa using h) d d0

/-- C3 counterexample: construction does not sort the t axis.  With
t = [1, 0] (and singleton pump/probe axes) the constructed dataset
keeps t = [1, 0], which is not ascending, so not all three axes of the
constructed dataset are sorted. -/
theorem c3_t_axis_counterexample :
    ∃ ds, attrsPostInit [1, 0] [5] [7] [[[10]], [[20]]] = .ok ds ∧
      ¬ ds.t.Pairwise (· ≤ ·) :=
  ⟨postInitPayload [1, 0] [5] [7] [[[10]], [[20]]], by decide, by decide⟩

/-- C3 (amended): for every valid input with pairwise-distinct pump and
probe values, construction succeeds and yields a dataset whose pump and
probe axes are ascending permutations of the inputs, whose t axis is
the input t unchanged (not re-sorted), and whose data at sorted
coordinates equals the input data at the corresponding pre-permutation
pump/probe coordinates — the sorting is a pure reindex.  (Defensive
copying is invisible in this value-semantics embedding; the source
calls .copy() on all four arrays.) -/
theorem c3_construction_reindex (t pump probe : List ℚ) (data : List (List (List ℚ)))
    (hnd1 : pump.Nodup) (hnd2 : probe.Nodup)
    (hsh : dataShape data = (t.length, probe.length, pump.length))
    (hcub : isCuboid data = true) :
    ∃ ds, attrsPostInit t pump probe data = .ok ds ∧
      ds.t = t ∧
      ds.pump_wn.Pairwise (· ≤ ·) ∧
      ds.probe_wn.Pairwise (· ≤ ·) ∧
      ds.pump_wn.Perm pump ∧
      ds.probe_wn.Perm probe ∧
      ∀ i < t.length, ∀ j < probe.length, ∀ k < pump.length,
        ((ds.spec2d.getD i []).getD j []).getD k 0 =
          ((data.getD i []).getD (probe.indexOf (ds.probe_wn.getD j 0)) []).getD
            (pump.indexOf (ds.pump_wn.getD k 0)) 0 := by
  have hdl : data.length = t.length := congrArg (fun p => p.1) hsh
  have hhd1 : (data.headD []).length = probe.length := congrArg (fun p => p.2.1) hsh
  have hhd2 : ((data.headD []).headD []).length = pump.length :=
    congrArg (fun p => p.2.2) hsh
  have hcub' : ∀ sl ∈ data, sl.length = (data.headD []).length ∧
      ∀ r ∈ sl, r.length = ((data.headD []).headD []).length := by
    intro sl hm
    have := (List.all_eq_true.mp hcub) sl hm
    simp only [Bool.and_eq_true, beq_iff_eq, List.all_eq_true] at this
    exact ⟨this.1, fun r hr => (this.2 r hr)⟩
  refine ⟨postInitPayload t pump probe data, by simp [attrsPostInit, hsh], rfl,
    reindex_argsort_sorted pump, reindex_argsort_sorted probe,
    reindex_argsort_perm pump, reindex_argsort_perm probe, ?_⟩
  intro i hi j hj k hk
  have hiB : i < data.length := by rw [hdl]; exact hi
  have hjB : j < (argsort probe).length := by rw [argsort_length]; exact hj
  have hkB : k < (argsort pump).length := by rw [argsort_length]; exact hk
  -- bounds of the gathered indices
  have hi2 : (argsort probe).getD j 0 < probe.length := by
    apply mem_argsort_lt
    rw [List.getD_eq_getElem _ _ hjB]
    exact List.getElem_mem _
  have hi1 : (argsort pump).getD k 0 < pump.length := by
    apply mem_argsort_lt
    rw [List.getD_eq_getElem _ _ hkB]
    exact List.getElem_mem _
  -- the slice and its lengths
  have hslmem : data.getD i [] ∈ data := by
    rw [List.getD_eq_getElem _ _ hiB]
    exact List.getElem_mem _
  have hsllen : (data.getD i []).length = probe.length := by
    rw [(hcub' _ hslmem).1, hhd1]
  have hrowlen : ∀ r ∈ data.getD i [], r.length = pump.length := by
    intro r hr
    rw [(hcub' _ hslmem).2 r hr, hhd2]
  -- LHS: step through the payload
  have hL0 : (postInitPayload t pump probe data).spec2d.getD i [] =
      reindex ((data.getD i []).map fun row => reindex row (argsort pump) 0)
        (argsort probe) [] := by
    show (data.map fun sl =>
        reindex (sl.map fun row => reindex row (argsort pump) 0) (argsort probe) []).getD
          i [] = _
    exact getD_map_of_lt _ data i hiB [] []
  have hL1 : (reindex ((data.getD i []).map fun row => reindex row (argsort pump) 0)
      (argsort probe) []).getD j [] =
      reindex ((data.getD i []).getD ((argsort probe).getD j 0) []) (argsort pump) 0 := by
    rw [reindex_getD _ _ _ _ hjB]
    exact getD_map_of_lt _ _ _ (by rw [hsllen]; exact hi2) [] []
  have hL2 : (reindex ((data.getD i []).getD ((argsort probe).getD j 0) [])
      (argsort pump) 0).getD k 0 =
      ((data.getD i []).getD ((argsort probe).getD j 0) []).getD
        ((argsort pump).getD k 0) 0 :=
    reindex_getD _ _ _ _ hkB
  -- RHS: the pre-permutation coordinates are exactly the gathered indices
  have hR1 : probe.indexOf ((postInitPayload t pump probe data).probe_wn.getD j 0) =
      (argsort probe).getD j 0 := by
    show probe.indexOf ((reindex probe (argsort probe) 0).getD j 0) = _
    rw [reindex_getD _ _ _ _ hjB, List.getD_eq_getElem _ _ hi2]
    exact List.indexOf_getElem hnd2 _ hi2
  have hR2 : pump.indexOf ((postInitPayload t pump probe data).pump_wn.getD k 0) =
      (argsort pump).getD k 0 := by
    show pump.indexOf ((reindex pump (argsort pump) 0).getD k 0) = _
    rw [reindex_getD _ _ _ _ hkB, List.getD_eq_getElem _ _ hi1]
    exact List.indexOf_getElem hnd1 _ hi1
  rw [hL0, hL1, hL2, hR1, hR2]

/-- C3 witness: the amended statement at a concrete dataset whose pump
and probe axes arrive permuted. -/
theorem c3_construction_reindex_witness :
    ∃ ds, attrsPostInit [0] [2, 1] [3, 1] [[[5, 6], [7, 8]]] = .ok ds ∧
      ds.t = [0] ∧
      ds.pump_wn.Pairwise (· ≤ ·) ∧
      ds.probe_wn.Pairwise (· ≤ ·) ∧
      ds.pump_wn.Perm [2, 1] ∧
      ds.probe_wn.Perm [3, 1] ∧
      ∀ i < ([0] : List ℚ).length, ∀ j < ([3, 1] : List ℚ).length,
        ∀ k < ([2, 1] : List ℚ).length,
        ((ds.spec2d.getD i []).getD j []).getD k 0 =
          ((([[[5, 6], [7, 8]]] : List (List (List ℚ))).getD i []).getD
              (([3, 1] : List ℚ).indexOf (ds.probe_wn.getD j 0)) []).getD
            (([2, 1] : List ℚ).indexOf (ds.pump_wn.getD k 0)) 0 :=
  c3_construction_reindex [0] [2, 1] [3, 1] [[[5, 6], [7, 8]]] (by decide) (by decide)
    (by decide) (by decide)

/-- Horner evaluation as a power sum over the index range. -/
theorem polyval_sum_range (c : List ℚ) (x : ℚ) :
    polyval c x = ∑ i ∈ Finset.range c.length, c.getD i 0 * x ^ i := by
  induction c with
  | nil => simp [polyval]
  | cons a c ih =>
      have h1 : polyval (a :: c) x = a + x * polyval c x := rfl
      rw [h1, ih, List.length_cons, Finset.sum_range_succ']
      simp only [List.getD_cons_succ, List.getD_cons_zero, pow_zero, mul_one]
      rw [Finset.mul_sum]
      rw [add_comm]
      congr 1
      apply Finset.sum_congr rfl
      intro i _
      ring

/-- Exactness of the least-squares polynomial fit: when the sampled
values come from a polynomial with deg+1 coefficients and the normal
matrix is nonsingular, polyfit returns exactly those coefficients. -/
theorem polyfit_exact (xs : List ℚ) (deg : ℕ) (c : List ℚ) (hc : c.length = deg + 1)
    (hdet : (normalMat xs deg).det ≠ 0) :
    polyfit xs (xs.map (polyval c)) deg = c := by
  set V := vandermondeL xs deg with hV
  set A := normalMat xs deg with hA
  set b := normalVec xs (xs.map (polyval c)) deg with hb
  set cv : Fin (deg + 1) → ℚ := fun j => c.getD j 0 with hcv
  have hys : (fun i : Fin xs.length => (xs.map (polyval c)).getD i 0) = V.mulVec cv := by
    funext i
    rw [getD_map_of_lt (polyval c) xs i i.isLt 0 0]
    rw [polyval_sum_range, hc]
    rw [← Fin.sum_univ_eq_sum_range (fun j => c.getD j 0 * (xs.getD i 0) ^ j) (deg + 1)]
    simp only [Matrix.mulVec, Matrix.dotProduct, hV, vandermondeL, Matrix.of_apply]
    apply Finset.sum_congr rfl
    intro j _
    rw [mul_comm, List.getD_eq_getElem xs 0 i.isLt]
    rfl
  have hbeq : b = A.mulVec cv := by
    rw [hb, hA]
    show (vandermondeL xs deg).transpose.mulVec
        (fun i => (xs.map (polyval c)).getD i 0) = _
    rw [hys, Matrix.mulVec_mulVec]
    rfl
  have hsolve : A.mulVec (fun j => Matrix.cramer A b j / A.det) = A.mulVec cv := by
    have h1 : (fun j => Matrix.cramer A b j / A.det) = A.det⁻¹ • Matrix.cramer A b := by
      funext j
      simp [div_eq_inv_mul, Pi.smul_apply, smul_eq_mul]
    rw [h1, Matrix.mulVec_smul, Matrix.mulVec_cramer, smul_smul,
      inv_mul_cancel₀ hdet, one_smul, hbeq]
  have hinj : (fun j => Matrix.cramer A b j / A.det) = cv := by
    have hu : A⁻¹ * A = 1 := Matrix.nonsing_inv_mul A (isUnit_iff_ne_zero.mpr hdet)
    have h2 := congrArg (fun v => A⁻¹.mulVec v) hsolve
    simpa [Matrix.mulVec_mulVec, hu, Matrix.one_mulVec] using h2
  apply List.ext_getElem
  · simp [polyfit, hc]
  · intro n h1 h2
    have hn : n < deg + 1 := by simpa [polyfit] using h1
    have := congrFun hinj ⟨n, hn⟩
    simp only [polyfit, List.getElem_map, List.getElem_finRange]
    rw [Fin.cast_mk]
    rw [this]
    exact List.getD_eq_getElem c 0 h2

/-- Entries of idxMapFrom, for in-range indices. -/
theorem idxMapFrom_getD {α β : Type} (f : ℕ → α → β) :
    ∀ (l : List α) (i0 j : ℕ), j < l.length → ∀ (d : β) (d0 : α),
      (idxMapFrom f i0 l).getD j d = f (i0 + j) (l.getD j d0) := by
  intro l
  induction l with
  | nil =>
      intro i0 j h
      simp at h
  | cons a l ih =>
      intro i0 j h d d0
      cases j with
      | zero => simp [idxMapFrom]
      | succ n =>
          show (idxMapFrom f i0 (a :: l)).getD (n + 1) d = _
          simp only [idxMapFrom, List.getD_cons_succ]
          rw [ih (i0 + 1) n (by simpa using h) d d0]
          congr 1
          omega

/-- Entries of idxMap, for in-range indices. -/
theorem idxMap_getD {α β : Type} (f : ℕ → α → β) (l : List α) (j : ℕ) (h : j < l.length)
    (d : β) (d0 : α) : (idxMap f l).getD j d = f j (l.getD j d0) := by
  unfold idxMap
  rw [idxMapFrom_getD f l 0 j h d d0]
  simp

/-- One cell of the background-corrected array: the original value
minus the fitted background polynomial evaluated at the cell's probe
coordinate. -/
theorem backgroundCorrection_cell (ds : TwoDim) (e : ℚ × ℚ) (deg ti j pj : ℕ)
    (hti : ti < ds.spec2d.length) (hj : j < (ds.spec2d.getD ti []).length)
    (hpj : pj < ((ds.spec2d.getD ti []).getD j []).length) :
    (((backgroundCorrection ds e deg).spec2d.getD ti []).getD j []).getD pj 0 =
      ((ds.spec2d.getD ti []).getD j []).getD pj 0 -
        polyval (bgCoefs ds.probe_wn (bgMask ds.probe_wn e) (ds.spec2d.getD ti []) pj deg)
          (ds.probe_wn.getD j 0) := by
  simp only [backgroundCorrection,
    getD_map_of_lt _ _ _ hti ([] : List (List ℚ)) ([] : List (List ℚ)),
    idxMap_getD _ _ _ hj ([] : List ℚ) ([] : List ℚ),
    idxMap_getD _ _ _ hpj (0 : ℚ) (0 : ℚ)]

/-- A sum of a function of the entries over the index range equals the
sum of the mapped list. -/
theorem sum_fin_get (f : ℚ → ℚ) :
    ∀ xs : List ℚ, ∑ i : Fin xs.length, f (xs.get i) = (xs.map f).sum := by
  intro xs
  induction xs with
  | nil => simp
  | cons a l ih =>
      show ∑ i : Fin (l.length + 1), f ((a :: l).get i) = _
      rw [Fin.sum_univ_succ]
      show f a + ∑ i : Fin l.length, f (l.get i) = f a + (l.map f).sum
      rw [ih]

/-- Entries of the normal matrix as concrete list sums (used to
evaluate its determinant on concrete inputs). -/
theorem normalMat_apply (xs : List ℚ) (deg : ℕ) (i j : Fin (deg + 1)) :
    normalMat xs deg i j = (xs.map fun x => x ^ (i : ℕ) * x ^ (j : ℕ)).sum := by
  simp only [normalMat, Matrix.mul_apply, Matrix.transpose_apply, vandermondeL,
    Matrix.of_apply]
  exact sum_fin_get (fun x => x ^ (i : ℕ) * x ^ (j : ℕ)) xs

/-- C5: background_correction subtracts, from every (waiting-time,
pump) column, the polynomial fitted on the probe points outside
excluded_range, leaving the axes untouched (the data array is the only
mutated field); on a dataset that is a pure polynomial of degree at
most deg along the probe axis (coefficients c0, possibly different per
column) with a nonsingular fit, the corrected array is identically
zero — exactly, since the embedding computes over ℚ. -/
theorem c5_background_correction_zeroes (ds : TwoDim) (excludedRange : ℚ × ℚ) (deg : ℕ)
    (c0 : ℕ → ℕ → List ℚ)
    (hsh : ds.shapeOk = true)
    (hclen : ∀ ti < ds.t.length, ∀ pj < ds.pump_wn.length, (c0 ti pj).length = deg + 1)
    (hpoly : ∀ ti < ds.t.length, ∀ j < ds.probe_wn.length, ∀ pj < ds.pump_wn.length,
      ((ds.spec2d.getD ti []).getD j []).getD pj 0 =
        polyval (c0 ti pj) (ds.probe_wn.getD j 0))
    (hdet :
      (normalMat (maskFilter ds.probe_wn (bgMask ds.probe_wn excludedRange)) deg).det ≠
        0) :
    (backgroundCorrection ds excludedRange deg).t = ds.t ∧
    (backgroundCorrection ds excludedRange deg).pump_wn = ds.pump_wn ∧
    (backgroundCorrection ds excludedRange deg).probe_wn = ds.probe_wn ∧
    ∀ ti < ds.t.length, ∀ j < ds.probe_wn.length, ∀ pj < ds.pump_wn.length,
      (((backgroundCorrection ds excludedRange deg).spec2d.getD ti []).getD j []).getD pj
        0 = 0 := by
  obtain ⟨hL, hS⟩ := (shapeOk_iff ds).mp hsh
  refine ⟨rfl, rfl, rfl, ?_⟩
  intro ti hti j hj pj hpj
  have htiB : ti < ds.spec2d.length := by rw [hL]; exact hti
  have hslmem : ds.spec2d.getD ti [] ∈ ds.spec2d := by
    rw [List.getD_eq_getElem _ _ htiB]
    exact List.getElem_mem _
  obtain ⟨hslL, hrowL⟩ := hS _ hslmem
  have hjB : j < (ds.spec2d.getD ti []).length := by rw [hslL]; exact hj
  have hrmem : (ds.spec2d.getD ti []).getD j [] ∈ ds.spec2d.getD ti [] := by
    rw [List.getD_eq_getElem _ _ hjB]
    exact List.getElem_mem _
  have hpjB : pj < ((ds.spec2d.getD ti []).getD j []).length := by
    rw [hrowL _ hrmem]
    exact hpj
  rw [backgroundCorrection_cell ds excludedRange deg ti j pj htiB hjB hpjB]
  have hcol : colExtract (ds.spec2d.getD ti []) pj =
      ds.probe_wn.map (polyval (c0 ti pj)) := by
    apply List.ext_getElem
    · simp only [colExtract, List.length_map]
      exact hslL
    · intro n h1 h2
      have hn : n < ds.probe_wn.length := by simpa using h2
      have hnB : n < (ds.spec2d.getD ti []).length := by rw [hslL]; exact hn
      simp only [colExtract] at h1 ⊢
      rw [List.getElem_map, List.getElem_map]
      have hp := hpoly ti hti n hn pj hpj
      rw [List.getD_eq_getElem _ _ hnB] at hp
      rw [hp, List.getD_eq_getElem _ _ hn]
  have hfit : bgCoefs ds.probe_wn (bgMask ds.probe_wn excludedRange)
      (ds.spec2d.getD ti []) pj deg = c0 ti pj := by
    unfold bgCoefs
    rw [hcol, maskFilter_map]
    exact polyfit_exact _ deg (c0 ti pj) (hclen ti hti pj hpj) hdet
  rw [hfit, hpoly ti hti j hj pj hpj]
  exact sub_self _

/-- C5 witness: a concrete dataset that is the polynomial 2w + 1 along
the probe axis, an excluded range dropping the probe point 2, and a
degree-1 fit: the normal matrix is nonsingular and the corrected array
is identically zero. -/
theorem c5_background_correction_zeroes_witness :
    (normalMat (maskFilter ([0, 1, 2, 3] : List ℚ)
        (bgMask ([0, 1, 2, 3] : List ℚ) (2, 2))) 1).det ≠ 0 ∧
    ∀ ti < 1, ∀ j < 4, ∀ pj < 1,
      (((backgroundCorrection ⟨[0], [5], [0, 1, 2, 3], [[[1], [3], [5], [7]]]⟩ (2, 2)
            1).spec2d.getD ti []).getD j []).getD pj 0 = 0 := by
  have hdet : (normalMat (maskFilter ([0, 1, 2, 3] : List ℚ)
      (bgMask ([0, 1, 2, 3] : List ℚ) (2, 2))) 1).det ≠ 0 := by
    have hmask : maskFilter ([0, 1, 2, 3] : List ℚ)
        (bgMask ([0, 1, 2, 3] : List ℚ) (2, 2)) = ([0, 1, 3] : List ℚ) := by decide
    rw [hmask, Matrix.det_fin_two]
    simp only [normalMat_apply]
    norm_num
  refine ⟨hdet, (c5_background_correction_zeroes
      ⟨[0], [5], [0, 1, 2, 3], [[[1], [3], [5], [7]]]⟩ (2, 2) 1 (fun _ _ => [1, 2])
      (by decide) (by decide) ?_ hdet).2.2.2⟩
  intro ti hti j hj pj hpj
  match ti, hti, pj, hpj with
  | 0, _, 0, _ =>
    match j, hj with
    | 0, _ => norm_num [polyval]
    | 1, _ => norm_num [polyval]
    | 2, _ => norm_num [polyval]
    | 3, _ => norm_num [polyval]
